import Mathlib

/-
Verification of the user-directory MCP server (src/main.py, with the
near-duplicate src/openai_compliant_server.py agreeing on all modelled
logic).  Python strings are modelled as lists of characters; the sqlite
`users` table is modelled as a list of `User` records in insertion order.
Case folding models Python `str.lower` on the ASCII range, and `int(...)`
parsing models sign + decimal digits with surrounding whitespace
(Python's underscore digit grouping is not modelled; no claim involves it).
-/

namespace MCPServer

set_option maxRecDepth 8000

/-- Characters of a Python string value. -/
abbrev PyStr := List Char

/-- ASCII model of Python `str.lower` on a single character. -/
def lowerChar : Char → Char
  | 'A' => 'a'
  | 'B' => 'b'
  | 'C' => 'c'
  | 'D' => 'd'
  | 'E' => 'e'
  | 'F' => 'f'
  | 'G' => 'g'
  | 'H' => 'h'
  | 'I' => 'i'
  | 'J' => 'j'
  | 'K' => 'k'
  | 'L' => 'l'
  | 'M' => 'm'
  | 'N' => 'n'
  | 'O' => 'o'
  | 'P' => 'p'
  | 'Q' => 'q'
  | 'R' => 'r'
  | 'S' => 's'
  | 'T' => 't'
  | 'U' => 'u'
  | 'V' => 'v'
  | 'W' => 'w'
  | 'X' => 'x'
  | 'Y' => 'y'
  | 'Z' => 'z'
  | c => c

/-- Python `s.lower()`. -/
def lowerStr (s : PyStr) : PyStr := s.map lowerChar

/-- Whether `hay` starts with `needle` (auxiliary for substring test). -/
def leadsWith : PyStr → PyStr → Bool
  | [], _ => true
  | _ :: _, [] => false
  | a :: as, b :: bs => a == b && leadsWith as bs

/-- Python `needle in hay` (substring containment). -/
def containsSub (needle : PyStr) : PyStr → Bool
  | [] => leadsWith needle []
  | c :: rest => leadsWith needle (c :: rest) || containsSub needle rest

/-- Python `"@" in s`. -/
def hasAt (s : PyStr) : Bool := decide ('@' ∈ s)

/-- ASCII decimal digit test. -/
def isDigitChar (c : Char) : Bool := decide ('0' ≤ c ∧ c ≤ '9')

/-- Python `s.isdigit()` restricted to ASCII digits. -/
def pyIsDigit (s : PyStr) : Bool := !s.isEmpty && s.all isDigitChar

/-- Whitespace stripped by Python `int(...)`. -/
def isWsChar (c : Char) : Bool :=
  c == ' ' || c == '\t' || c == '\n' || c == '\r' || c == '\x0b' || c == '\x0c'

/-- Strip leading and trailing whitespace. -/
def trimWs (s : PyStr) : PyStr :=
  ((s.dropWhile isWsChar).reverse.dropWhile isWsChar).reverse

/-- Value of an ASCII digit character. -/
def digitVal? (c : Char) : Option Nat :=
  if '0' ≤ c ∧ c ≤ '9' then some (c.toNat - 48) else none

/-- Left-to-right accumulation of a digit string's value. -/
def parseDigitsAux : List Char → Nat → Option Nat
  | [], acc => some acc
  | c :: t, acc =>
    match digitVal? c with
    | some d => parseDigitsAux t (10 * acc + d)
    | none => none

/-- Parse a nonempty all-digit string. -/
def parseDigits (s : PyStr) : Option Nat :=
  if s.isEmpty then none else parseDigitsAux s 0

/-- Python `int(s)`: optional surrounding whitespace, optional sign, digits. -/
def pyIntParse (s : PyStr) : Option Int :=
  match trimWs s with
  | [] => none
  | c :: rest =>
    if c = '+' then (parseDigits rest).map (fun m => (m : Int))
    else if c = '-' then (parseDigits rest).map (fun m => -(m : Int))
    else (parseDigits (c :: rest)).map (fun m => (m : Int))

/-- Decimal digit character for a value below ten. -/
def digitChar : Nat → Char
  | 0 => '0'
  | 1 => '1'
  | 2 => '2'
  | 3 => '3'
  | 4 => '4'
  | 5 => '5'
  | 6 => '6'
  | 7 => '7'
  | 8 => '8'
  | _ => '9'

/-- Fuel-driven digit expansion of a natural number (most significant first). -/
def natReprGo : Nat → Nat → List Char
  | 0, _ => []
  | fuel + 1, n =>
    if n = 0 then [] else natReprGo fuel (n / 10) ++ [digitChar (n % 10)]

/-- Python `str(n)` for a natural number. -/
def natRepr (n : Nat) : PyStr :=
  if n = 0 then ['0'] else natReprGo (n + 1) n

/-- Python `str(n)` for an integer. -/
def intRepr : Int → PyStr
  | .ofNat m => natRepr m
  | .negSucc m => '-' :: natRepr (m + 1)

/-- A row of the `users` table (id INTEGER PRIMARY KEY, name, email). -/
structure User where
  id : Int
  name : PyStr
  email : PyStr
deriving DecidableEq

/-- db.get_users(): SELECT id, name, email FROM users, in insertion order. -/
def get_users (store : List User) : List User := store

/-- db.get_user(user_id): SELECT ... WHERE id = ?. -/
def get_user (store : List User) (n : Int) : Option User :=
  store.find? (fun u => u.id == n)

/-- Next AUTOINCREMENT id: one more than the largest id ever used.  Modelled
as max existing id + 1, which agrees with sqlite in the absence of deletes. -/
def nextId (store : List User) : Int :=
  store.foldr (fun u m => max u.id m) 0 + 1

/-- Outcome of db.create_user: the new store and row, or the sqlite
IntegrityError raised by the UNIQUE constraint on email. -/
inductive CreateOutcome where
  | ok (store : List User) (u : User)
  | constraintViolation
deriving DecidableEq

/-- db.create_user(user): INSERT INTO users (name, email) VALUES (?, ?);
the UNIQUE email constraint rejects an exact duplicate address. -/
def create_user (store : List User) (nm em : PyStr) : CreateOutcome :=
  if store.any (fun u => u.email == em) then .constraintViolation
  else .ok (store ++ [⟨nextId store, nm, em⟩]) ⟨nextId store, nm, em⟩

/-- The `arguments` dict of a tool call, with one typed slot per key the
dispatcher reads; an absent key is `none`. -/
structure ToolArgs where
  query : Option PyStr := none
  limit : Option Int := none
  id : Option PyStr := none
  identifier : Option PyStr := none
  name : Option PyStr := none
  email : Option PyStr := none
  user_id : Option Int := none
deriving DecidableEq

/-- One entry of the list returned by execute_search (OpenAI result format). -/
structure SearchResult where
  id : PyStr
  title : PyStr
  text : PyStr
  url : PyStr
deriving DecidableEq

/-- The search-result dict built for one matching user in execute_search. -/
def mkSearchResult (u : User) : SearchResult :=
  { id := intRepr u.id
  , title := "User: ".toList ++ u.name
  , text := "User ".toList ++ u.name ++ " with email ".toList ++ u.email ++
      ". Contact information and profile details available.".toList
  , url := "https://chatgpt-mcp-server-production-d35b.up.railway.app/users/".toList ++
      intRepr u.id }

/-- Whether a user matches the (already lower-cased) query: substring of the
lower-cased name or the lower-cased email. -/
def userMatches (query : PyStr) (u : User) : Bool :=
  containsSub query (lowerStr u.name) || containsSub query (lowerStr u.email)

/-- The for-loop of execute_search: append each matching user's result, and
break as soon as the collected count reaches `limit` (checked after every
iteration, whether or not a result was appended). -/
def searchGo (query : PyStr) (limit : Int) : List User → List SearchResult → List SearchResult
  | [], acc => acc
  | u :: rest, acc =>
    let acc' := if userMatches query u then acc ++ [mkSearchResult u] else acc
    if limit ≤ (acc'.length : Int) then acc' else searchGo query limit rest acc'

/-- execute_search (src/main.py lines 114-137): lower-case the query
(default empty, never trimmed), default the limit to 10, scan all users. -/
def execute_search (args : ToolArgs) (store : List User) : List SearchResult :=
  let query := lowerStr (args.query.getD [])
  let limit := args.limit.getD 10
  searchGo query limit (get_users store) []

/-- The metadata dict of a successful fetch. -/
structure FetchMetadata where
  user_id : Int
  name : PyStr
  email : PyStr
  account_type : PyStr
  status : PyStr
deriving DecidableEq

/-- The dict returned by execute_fetch; the not-found shape has `url` and
`metadata` set to None. -/
structure FetchResult where
  id : PyStr
  title : PyStr
  text : PyStr
  url : Option PyStr
  metadata : Option FetchMetadata
deriving DecidableEq

/-- The success dict of execute_fetch (src/main.py lines 164-178). -/
def foundResult (u : User) : FetchResult :=
  { id := intRepr u.id
  , title := "User Profile: ".toList ++ u.name
  , text := "Complete user profile for ".toList ++ u.name ++
      "\n\nContact Information:\n- Email: ".toList ++ u.email ++
      "\n- User ID: ".toList ++ intRepr u.id ++
      "\n\nProfile Status: Active\nAccount Type: Standard User\n\nThis user record contains basic contact and identification information.".toList
  , url := some ("https://chatgpt-mcp-server-production-d35b.up.railway.app/users/".toList ++ intRepr u.id)
  , metadata := some
      { user_id := u.id, name := u.name, email := u.email
      , account_type := "standard".toList, status := "active".toList } }

/-- The not-found dict of execute_fetch (src/main.py lines 179-187). -/
def notFoundResult (identifier : PyStr) : FetchResult :=
  { id := identifier
  , title := "User Not Found".toList
  , text := "No user found with identifier: ".toList ++ identifier
  , url := none
  , metadata := none }

/-- Identifier preference of execute_fetch: arguments.get("id", ""), falling
back to arguments.get("identifier", "") when that is empty. -/
def effIdentifier (args : ToolArgs) : PyStr :=
  let id0 := args.id.getD []
  if id0.isEmpty then args.identifier.getD [] else id0

/-- The auto-detected identifier kind of execute_fetch. -/
inductive IdKind where
  | byId
  | byEmail
deriving DecidableEq, BEq

/-- The user-resolution part of execute_fetch: detect the identifier kind
from the presence of "@", then either int-parse and look up by id (the
int() ValueError is swallowed, leaving no user), or scan for the first user
whose lower-cased email equals the lower-cased identifier. -/
def resolveUser (store : List User) (identifier : PyStr) : Option User :=
  let idType : IdKind := if hasAt identifier then .byEmail else .byId
  if idType = IdKind.byId ∨ pyIsDigit identifier = true then
    match pyIntParse identifier with
    | some n => get_user store n
    | none => none
  else if idType = IdKind.byEmail ∨ hasAt identifier = true then
    (get_users store).find? (fun u => lowerStr u.email == lowerStr identifier)
  else none

/-- execute_fetch (src/main.py lines 139-187). -/
def execute_fetch (args : ToolArgs) (store : List User) : FetchResult :=
  let identifier := effIdentifier args
  match resolveUser store identifier with
  | some u => foundResult u
  | none => notFoundResult identifier

/-- Exceptions that the delegated calls inside call_tool can raise. -/
inductive PyErr where
  | integrityErr
  | validationErr
  | keyErr (k : PyStr)
deriving DecidableEq

/-- Python str(e) of each modelled exception (KeyError quoting elided). -/
def pyErrMsg : PyErr → PyStr
  | .integrityErr => "UNIQUE constraint failed: users.email".toList
  | .validationErr => "validation error for User".toList
  | .keyErr k => "KeyError: ".toList ++ k

/-- The body of a tool-call request. -/
structure MCPToolCall where
  name : PyStr
  arguments : ToolArgs
deriving DecidableEq

/-- The result payload of a tool call: search and fetch return raw dicts,
all other tools return prose strings. -/
inductive ResponseBody where
  | searchBody (results : List SearchResult)
  | fetchBody (r : FetchResult)
  | message (s : PyStr)
deriving DecidableEq

/-- The uniform MCPResponse envelope (result or error, each optional). -/
structure MCPResponse where
  result : Option ResponseBody := none
  error : Option PyStr := none
deriving DecidableEq

/-- Python list slicing users[:limit] for a possibly negative limit. -/
def pyTake (l : List User) (n : Int) : List User :=
  if 0 ≤ n then l.take n.toNat else l.take ((l.length : Int) + n).toNat

/-- Prose line for one user in the list_users reply. -/
def userLine (u : User) : PyStr :=
  "ID: ".toList ++ intRepr u.id ++ ", Name: ".toList ++ u.name ++
    ", Email: ".toList ++ u.email ++ "\n".toList

/-- Prose reply of list_users. -/
def listUsersMsg (limited all : List User) : PyStr :=
  "Users (".toList ++ natRepr limited.length ++ " of ".toList ++
    natRepr all.length ++ "):\n".toList ++ (limited.map userLine).flatten

/-- Prose reply of create_user. -/
def createdMsg (u : User) : PyStr :=
  "Created user: ID=".toList ++ intRepr u.id ++ ", Name=".toList ++ u.name ++
    ", Email=".toList ++ u.email

/-- Prose reply of get_user. -/
def userMsg (u : User) : PyStr :=
  "User: ID=".toList ++ intRepr u.id ++ ", Name=".toList ++ u.name ++
    ", Email=".toList ++ u.email

/-- Prose reply of update_user. -/
def updatedMsg (u : User) : PyStr :=
  "Updated: ID=".toList ++ intRepr u.id ++ ", Name=".toList ++ u.name ++
    ", Email=".toList ++ u.email

/-- Prose not-found reply for an id-keyed tool. -/
def notFoundIdMsg (uid : Int) : PyStr :=
  "User not found: ID=".toList ++ intRepr uid

/-- Prose reply of delete_user. -/
def deletedMsg (uid : Int) : PyStr :=
  "Deleted user: ID=".toList ++ intRepr uid

/-- db.update_user: UPDATE name/email WHERE id; no matching row means no
change (rowcount 0); changing the email to another existing row's email
violates the UNIQUE constraint. -/
def update_user_db (store : List User) (uid : Int) (nm em : PyStr) :
    Except PyErr (Option User × List User) :=
  match store.find? (fun w => w.id == uid) with
  | none => .ok (none, store)
  | some _ =>
    if store.any (fun w => !(w.id == uid) && w.email == em) then .error .integrityErr
    else .ok (some ⟨uid, nm, em⟩, store.map (fun w => if w.id == uid then ⟨uid, nm, em⟩ else w))

/-- db.delete_user: DELETE WHERE id; reports whether a row was removed. -/
def delete_user_db (store : List User) (uid : Int) : Bool × List User :=
  (store.any (fun w => w.id == uid), store.filter (fun w => !(w.id == uid)))

/-- What the try-block of call_tool does: either it returns an envelope
(with the possibly updated store), or an exception escapes it. -/
inductive DispatchOutcome where
  | envelope (resp : MCPResponse) (store : List User)
  | raised (e : PyErr)
deriving DecidableEq

/-- The tool names recognised by the if/elif chain of call_tool. -/
def knownTools : List PyStr :=
  ["search".toList, "fetch".toList, "create_user".toList, "list_users".toList,
   "get_user".toList, "update_user".toList, "delete_user".toList]

/-- Error message for an unknown tool name. -/
def unknownToolMsg (nm : PyStr) : PyStr := "Unknown tool: ".toList ++ nm

/-- The try-block of call_tool (src/main.py lines 461-516): the if/elif
chain over the tool name.  Missing required argument keys model the
KeyError of arguments[...], missing create_user fields model the pydantic
validation error of User(**arguments). -/
def call_tool_body (req : MCPToolCall) (store : List User) : DispatchOutcome :=
  let args := req.arguments
  if req.name = "search".toList then
    .envelope { result := some (.searchBody (execute_search args store)) } store
  else if req.name = "fetch".toList then
    .envelope { result := some (.fetchBody (execute_fetch args store)) } store
  else if req.name = "create_user".toList then
    match args.name, args.email with
    | some nm, some em =>
      match create_user store nm em with
      | .ok store' u => .envelope { result := some (.message (createdMsg u)) } store'
      | .constraintViolation => .raised .integrityErr
    | _, _ => .raised .validationErr
  else if req.name = "list_users".toList then
    let users := get_users store
    let msg := if users.isEmpty then "No users in database".toList
      else listUsersMsg (pyTake users (args.limit.getD 50)) users
    .envelope { result := some (.message msg) } store
  else if req.name = "get_user".toList then
    match args.user_id with
    | none => .raised (.keyErr ("user_id".toList))
    | some uid =>
      match get_user store uid with
      | some u => .envelope { result := some (.message (userMsg u)) } store
      | none => .envelope { result := some (.message (notFoundIdMsg uid)) } store
  else if req.name = "update_user".toList then
    match args.user_id with
    | none => .raised (.keyErr ("user_id".toList))
    | some uid =>
      match args.name with
      | none => .raised (.keyErr ("name".toList))
      | some nm =>
        match args.email with
        | none => .raised (.keyErr ("email".toList))
        | some em =>
          match update_user_db store uid nm em with
          | .error e => .raised e
          | .ok (some u, store') => .envelope { result := some (.message (updatedMsg u)) } store'
          | .ok (none, store') => .envelope { result := some (.message (notFoundIdMsg uid)) } store'
  else if req.name = "delete_user".toList then
    match args.user_id with
    | none => .raised (.keyErr ("user_id".toList))
    | some uid =>
      let r := delete_user_db store uid
      if r.1 then .envelope { result := some (.message (deletedMsg uid)) } r.2
      else .envelope { result := some (.message (notFoundIdMsg uid)) } store
  else
    .envelope { error := some (unknownToolMsg req.name) } store

/-- call_tool: run the try-block; any raised exception is converted to an
error envelope with str(e), leaving the store untouched. -/
def call_tool (req : MCPToolCall) (store : List User) : MCPResponse × List User :=
  match call_tool_body req store with
  | .envelope resp store' => (resp, store')
  | .raised e => ({ error := some (pyErrMsg e) }, store)

/-- Condensed handshake payload: the fields of the mcp_spec dict that the
specification refers to (server info and the advertised operations). -/
structure HandshakeInfo where
  serverName : PyStr
  protocolVersion : PyStr
  operations : List PyStr
deriving DecidableEq

/-- The handshake emitted first on the SSE stream (src/main.py lines 233-332). -/
def mcpHandshake : HandshakeInfo :=
  { serverName := "ChatGPT MCP Server".toList
  , protocolVersion := "2024-11-05".toList
  , operations := ["search".toList, "fetch".toList] }

/-- An event emitted on the notification stream. -/
inductive SseEvent where
  | handshake (info : HandshakeInfo)
  | heartbeat (timestamp : Nat)
deriving DecidableEq

/-- Generator state of event_stream: whether the handshake was already
yielded, and the event-loop clock (time units; asyncio.sleep 30 advances
it by exactly the heartbeat interval). -/
structure SseState where
  started : Bool
  clock : Nat
deriving DecidableEq

/-- One resumption of the event_stream generator: the first resumption
yields the handshake; every later one sleeps 30 units and yields a
heartbeat stamped with the current clock. -/
def sseStep : SseState → SseEvent × SseState
  | ⟨false, t⟩ => (.handshake mcpHandshake, ⟨true, t⟩)
  | ⟨true, t⟩ => (.heartbeat (t + 30), ⟨true, t + 30⟩)

/-- The n-th event emitted from a given generator state. -/
def sseStream (s : SseState) : Nat → SseEvent
  | 0 => (sseStep s).1
  | n + 1 => sseStream (sseStep s).2 n

/-- A fresh connection at event-loop time t0. -/
def sseConnect (t0 : Nat) : SseState := ⟨false, t0⟩

/-- Timestamp carried by an event (handshakes carry none; 0 by convention). -/
def heartbeatTime : SseEvent → Nat
  | .handshake _ => 0
  | .heartbeat t => t

/-- Sample record used by concrete witnesses. -/
def alice : User := ⟨1, "Alice Johnson".toList, "alice@example.com".toList⟩

/-- Second sample record used by concrete witnesses. -/
def bob : User := ⟨2, "Bob Smith".toList, "bob@example.com".toList⟩

/-- The search loop collects, in order, the matching users' results until
the count reaches `limit`; with fewer than `limit` results already
collected it returns the accumulator followed by the results of the first
`limit - |acc|` matching users. -/
theorem searchGo_spec (q : PyStr) (limit : Int) :
    ∀ (us : List User) (acc : List SearchResult), (acc.length : Int) < limit →
    searchGo q limit us acc =
      acc ++ ((us.filter (fun u => userMatches q u)).take (limit.toNat - acc.length)).map mkSearchResult := by
  intro us
  induction us with
  | nil => intro acc _; simp [searchGo]
  | cons u rest ih =>
    intro acc h
    simp only [searchGo]
    by_cases hm : userMatches q u = true
    · rw [if_pos hm]
      by_cases hb : limit ≤ (((acc ++ [mkSearchResult u]).length : Nat) : Int)
      · rw [if_pos hb]
        simp only [List.length_append, List.length_cons, List.length_nil] at hb
        have h1 : limit.toNat - acc.length = 1 := by omega
        rw [List.filter_cons, if_pos hm, h1, List.take_succ_cons, List.take_zero]
        simp
      · rw [if_neg hb]
        simp only [List.length_append, List.length_cons, List.length_nil] at hb
        have hlt : (((acc ++ [mkSearchResult u]).length : Nat) : Int) < limit := by
          simp only [List.length_append, List.length_cons, List.length_nil]
          omega
        rw [ih _ hlt]
        have h2 : limit.toNat - acc.length =
            (limit.toNat - (acc ++ [mkSearchResult u]).length) + 1 := by
          simp only [List.length_append, List.length_cons, List.length_nil]
          omega
        rw [List.filter_cons, if_pos hm, h2, List.take_succ_cons]
        simp
    · rw [if_neg hm]
      have hb : ¬ limit ≤ ((acc.length : Nat) : Int) := by omega
      rw [if_neg hb, ih _ h, List.filter_cons, if_neg hm]

/-- With an effective limit of at least one, execute_search returns the
results of the first `limit` matching users, in store order. -/
theorem execute_search_pos (args : ToolArgs) (store : List User)
    (h : 1 ≤ args.limit.getD 10) :
    execute_search args store =
      ((store.filter (fun u => userMatches (lowerStr (args.query.getD [])) u)).take
        (args.limit.getD 10).toNat).map mkSearchResult := by
  have h0 : ((([] : List SearchResult).length : Nat) : Int) < args.limit.getD 10 := by
    simp only [List.length_nil, Nat.cast_zero]
    omega
  simp only [execute_search, get_users]
  rw [searchGo_spec _ _ store [] h0]
  simp

/-- With an effective limit of zero or less, execute_search inspects only
the first record: the break fires at the end of the first iteration. -/
theorem execute_search_nonpos (args : ToolArgs) (store : List User)
    (h : args.limit.getD 10 ≤ 0) :
    execute_search args store =
      match store with
      | [] => []
      | u :: _ =>
        if userMatches (lowerStr (args.query.getD [])) u then [mkSearchResult u] else [] := by
  cases store with
  | nil => simp [execute_search, get_users, searchGo]
  | cons u rest =>
    simp only [execute_search, get_users, searchGo]
    by_cases hm : userMatches (lowerStr (args.query.getD [])) u = true
    · rw [if_pos hm, if_pos (by simp; omega)]
      simp [hm]
    · rw [if_neg hm, if_pos (by simp; omega)]
      simp [hm]

/-- Two users producing the same search-result dict have the same name and
the same email (the templates embed both fields). -/
theorem mkSearchResult_inj {u v : User} (h : mkSearchResult u = mkSearchResult v) :
    u.name = v.name ∧ u.email = v.email := by
  have ht : (mkSearchResult u).title = (mkSearchResult v).title := congrArg SearchResult.title h
  have htx : (mkSearchResult u).text = (mkSearchResult v).text := congrArg SearchResult.text h
  simp only [mkSearchResult] at ht htx
  have hname : u.name = v.name := List.append_cancel_left ht
  refine ⟨hname, ?_⟩
  rw [hname] at htx
  have h1 := List.append_cancel_right htx
  exact List.append_cancel_left h1

/-- The match predicate depends only on the name and the email. -/
theorem userMatches_congr (q : PyStr) {u v : User} (hn : u.name = v.name)
    (he : u.email = v.email) : userMatches q u = userMatches q v := by
  unfold userMatches
  rw [hn, he]

/-- Soundness of search: every returned result comes from a record that
matches the lower-cased query. -/
theorem search_mem_matches (args : ToolArgs) (store : List User) (u : User)
    (h : mkSearchResult u ∈ execute_search args store) :
    userMatches (lowerStr (args.query.getD [])) u = true := by
  by_cases hl : 1 ≤ args.limit.getD 10
  · rw [execute_search_pos args store hl] at h
    obtain ⟨v, hv, hfv⟩ := List.mem_map.mp h
    obtain ⟨hvs, hvm⟩ := List.mem_filter.mp (List.mem_of_mem_take hv)
    obtain ⟨hn, he⟩ := mkSearchResult_inj hfv
    rw [userMatches_congr (lowerStr (args.query.getD [])) hn.symm he.symm]
    exact hvm
  · rw [execute_search_nonpos args store (by omega)] at h
    cases store with
    | nil => exact absurd h (List.not_mem_nil _)
    | cons v rest =>
      have h' : mkSearchResult u ∈
          (if userMatches (lowerStr (args.query.getD [])) v then [mkSearchResult v] else []) := h
      by_cases hvm : userMatches (lowerStr (args.query.getD [])) v = true
      · rw [if_pos hvm] at h'
        have hfv : mkSearchResult u = mkSearchResult v := List.mem_singleton.mp h'
        obtain ⟨hn, he⟩ := mkSearchResult_inj hfv
        rw [userMatches_congr (lowerStr (args.query.getD [])) hn he]
        exact hvm
      · rw [if_neg hvm] at h'
        exact absurd h' (List.not_mem_nil _)

/-- Completeness of search under the cap: when at most `limit` records
match, every matching record's result is returned. -/
theorem search_complete (args : ToolArgs) (store : List User) (u : User)
    (hcount : ((store.filter (fun v => userMatches (lowerStr (args.query.getD [])) v)).length : Int)
      ≤ args.limit.getD 10)
    (hu : u ∈ store) (hm : userMatches (lowerStr (args.query.getD [])) u = true) :
    mkSearchResult u ∈ execute_search args store := by
  by_cases hl : 1 ≤ args.limit.getD 10
  · rw [execute_search_pos args store hl]
    rw [List.take_of_length_le (by omega)]
    exact List.mem_map.mpr ⟨u, List.mem_filter.mpr ⟨hu, hm⟩, rfl⟩
  · exfalso
    have hz : (store.filter (fun v => userMatches (lowerStr (args.query.getD [])) v)).length = 0 := by
      omega
    have : u ∈ store.filter (fun v => userMatches (lowerStr (args.query.getD [])) v) :=
      List.mem_filter.mpr ⟨hu, hm⟩
    rw [List.length_eq_zero.mp hz] at this
    simp at this

/-- The empty query is a substring of every string. -/
theorem containsSub_nil (hay : PyStr) : containsSub [] hay = true := by
  cases hay <;> simp [containsSub, leadsWith]

/-- Every user matches the empty query. -/
theorem userMatches_nil (u : User) : userMatches [] u = true := by
  simp [userMatches, containsSub_nil]

/-- C1 counterexample: on a one-record store, search with the empty query
returns a nonempty result sequence, not the empty sequence the claim
requires. -/
theorem search_c1_counterexample :
    execute_search { query := some [] } [alice] ≠ [] := by decide

/-- C1 (amended): the code has no empty-query short-circuit and does not
trim: the query is only case-folded, the empty query is a substring of
every field, so search with the empty query returns the results of the
first `limit` records; and a whitespace-only query matches any record
whose fields contain that whitespace (witnessed on a concrete store). -/
theorem search_empty_query_matches_all (store : List User) (limit : Int)
    (h : 1 ≤ limit) :
    execute_search { query := some [], limit := some limit } store
      = (store.take limit.toNat).map mkSearchResult
    ∧ execute_search { query := some (" ".toList) } [alice]
      = [mkSearchResult alice] := by
  constructor
  · rw [execute_search_pos _ store (by simpa using h)]
    have hq : lowerStr ((some ([] : PyStr)).getD []) = [] := rfl
    have : store.filter (fun u => userMatches (lowerStr (((⟨some [], some limit, none, none, none, none, none⟩ : ToolArgs).query).getD [])) u) = store := by
      refine List.filter_eq_self.mpr ?_
      intro a _
      exact userMatches_nil a
    rw [this]
    rfl
  · decide

/-- C1 witness: the amended statement at store `[alice, bob]`, limit 1. -/
theorem search_empty_query_matches_all_witness :
    execute_search { query := some [], limit := some 1 } [alice, bob]
      = ([alice, bob].take (Int.toNat 1)).map mkSearchResult
    ∧ execute_search { query := some (" ".toList) } [alice]
      = [mkSearchResult alice] :=
  search_empty_query_matches_all [alice, bob] 1 (by decide)

/-- C2 counterexample: with limit 1 on a two-record store, `bob` matches the
query "o" yet his result is excluded, so inclusion is not equivalent to the
substring condition. -/
theorem search_c2_counterexample :
    userMatches (lowerStr ("o".toList)) bob = true
    ∧ bob ∈ [alice, bob]
    ∧ mkSearchResult bob ∉
        execute_search { query := some ("o".toList), limit := some 1 } [alice, bob] := by
  decide

/-- C2 (amended): every returned result comes from a record whose
case-folded name or address contains the case-folded query (a record
matching neither is excluded), and conversely a matching record is included
provided at most `limit` records match in total. -/
theorem search_substring_characterization (args : ToolArgs) (store : List User) (u : User) :
    (mkSearchResult u ∈ execute_search args store →
      userMatches (lowerStr (args.query.getD [])) u = true)
    ∧ (((store.filter (fun v => userMatches (lowerStr (args.query.getD [])) v)).length : Int)
        ≤ args.limit.getD 10 → u ∈ store →
      userMatches (lowerStr (args.query.getD [])) u = true →
      mkSearchResult u ∈ execute_search args store) :=
  ⟨search_mem_matches args store u, search_complete args store u⟩

/-- C2 witness: the completeness direction at a concrete store and query. -/
theorem search_substring_characterization_witness :
    mkSearchResult alice ∈ execute_search { query := some ("ali".toList) } [alice, bob] :=
  (search_substring_characterization { query := some ("ali".toList) } [alice, bob] alice).2
    (by decide) (by decide) (by decide)

/-- C3 counterexample: with limit 0 (a value at most 0) on a one-record
store whose first record matches, search returns one result — more than
`limit` and not the empty sequence the claim requires. -/
theorem search_c3_counterexample :
    (execute_search { query := some ("ali".toList), limit := some 0 } [alice]).length = 1 := by
  decide

/-- C3 (amended): with an explicit limit of at least 1, search returns at
most `limit` results; an omitted limit behaves exactly as limit 10; but for
a limit of 0 or less the break fires only after the first iteration, so
search inspects the first record and returns its result when it matches
(up to one result, not always none). -/
theorem search_limit_cap (args : ToolArgs) (store : List User) :
    (∀ limit : Int, args.limit = some limit → 1 ≤ limit →
      ((execute_search args store).length : Int) ≤ limit)
    ∧ (args.limit = none →
      execute_search args store = execute_search { args with limit := some 10 } store)
    ∧ (∀ limit : Int, args.limit = some limit → limit ≤ 0 →
      execute_search args store =
        match store with
        | [] => []
        | u :: _ =>
          if userMatches (lowerStr (args.query.getD [])) u then [mkSearchResult u] else []) := by
  refine ⟨?_, ?_, ?_⟩
  · intro limit hsome hlim
    have hg : args.limit.getD 10 = limit := by rw [hsome]; rfl
    rw [execute_search_pos args store (by omega)]
    simp only [List.length_map, List.length_take]
    omega
  · intro hnone
    simp only [execute_search, hnone]
    rfl
  · intro limit hsome hlim
    exact execute_search_nonpos args store (by rw [hsome]; simpa using hlim)

/-- C3 witness: the cap at a concrete store and limit. -/
theorem search_limit_cap_witness :
    ((execute_search { query := some ("ali".toList), limit := some 10 } [alice, bob]).length : Int) ≤ 10 :=
  (search_limit_cap { query := some ("ali".toList), limit := some 10 } [alice, bob]).1 10 rfl (by decide)

/-- Each digit character below ten lies in the ASCII digit range. -/
theorem digitChar_range (d : Nat) (h : d < 10) :
    '0' ≤ digitChar d ∧ digitChar d ≤ '9' := by
  interval_cases d <;> decide

/-- Parsing a digit character recovers its value. -/
theorem digitVal_digitChar (d : Nat) (h : d < 10) :
    digitVal? (digitChar d) = some d := by
  interval_cases d <;> decide

/-- Every character produced by the digit expansion is an ASCII digit. -/
theorem natReprGo_chars (fuel : Nat) :
    ∀ n, ∀ c ∈ natReprGo fuel n, '0' ≤ c ∧ c ≤ '9' := by
  induction fuel with
  | zero => intro n c hc; simp [natReprGo] at hc
  | succ fuel ih =>
    intro n c hc
    simp only [natReprGo] at hc
    by_cases hn : n = 0
    · rw [if_pos hn] at hc; simp at hc
    · rw [if_neg hn] at hc
      rcases List.mem_append.mp hc with h1 | h2
      · exact ih (n / 10) c h1
      · have hce : c = digitChar (n % 10) := by simpa using h2
        rw [hce]
        exact digitChar_range _ (Nat.mod_lt _ (by omega))

/-- An ASCII digit is not whitespace and is none of the characters the
parser and the identifier dispatcher treat specially. -/
theorem digit_char_facts {c : Char} (h : '0' ≤ c ∧ c ≤ '9') :
    isWsChar c = false ∧ c ≠ '+' ∧ c ≠ '-' ∧ c ≠ '@' := by
  obtain ⟨h1, h2⟩ := h
  refine ⟨?_, ?_, ?_, ?_⟩
  · by_contra hw
    simp only [Bool.not_eq_false] at hw
    simp only [isWsChar, Bool.or_eq_true, beq_iff_eq] at hw
    rcases hw with ((((rfl | rfl) | rfl) | rfl) | rfl) | rfl <;>
      exact absurd h1 (by decide)
  · intro hc; rw [hc] at h1; exact absurd h1 (by decide)
  · intro hc; rw [hc] at h1; exact absurd h1 (by decide)
  · intro hc; rw [hc] at h2; exact absurd h2 (by decide)

/-- The digit expansion of a positive number is nonempty. -/
theorem natRepr_ne_nil (n : Nat) : natRepr n ≠ [] := by
  unfold natRepr
  by_cases hn : n = 0
  · rw [if_pos hn]; simp
  · rw [if_neg hn]
    simp [natReprGo, hn]

/-- Every character of `natRepr` is an ASCII digit. -/
theorem natRepr_chars (n : Nat) : ∀ c ∈ natRepr n, '0' ≤ c ∧ c ≤ '9' := by
  unfold natRepr
  by_cases hn : n = 0
  · rw [if_pos hn]
    intro c hc
    simp at hc
    rw [hc]
    exact ⟨le_refl _, by decide⟩
  · rw [if_neg hn]
    exact natReprGo_chars _ _

/-- Digit accumulation distributes over append. -/
theorem parseDigitsAux_append (l1 l2 : List Char) (acc : Nat) :
    parseDigitsAux (l1 ++ l2) acc =
      match parseDigitsAux l1 acc with
      | some m => parseDigitsAux l2 m
      | none => none := by
  induction l1 generalizing acc with
  | nil => simp [parseDigitsAux]
  | cons c t ih =>
    cases hd : digitVal? c with
    | some d =>
      simp only [List.cons_append, parseDigitsAux, hd]
      exact ih _
    | none => simp only [List.cons_append, parseDigitsAux, hd]

/-- Accumulating over the expansion of `n` appends `n` below the shifted
accumulator. -/
theorem parseDigitsAux_natReprGo (fuel : Nat) :
    ∀ n acc, n < fuel →
    parseDigitsAux (natReprGo fuel n) acc
      = some (acc * 10 ^ (natReprGo fuel n).length + n) := by
  induction fuel with
  | zero => intro n acc h; omega
  | succ fuel ih =>
    intro n acc h
    by_cases hn : n = 0
    · subst hn; simp [natReprGo, parseDigitsAux]
    · have hstep : natReprGo (fuel + 1) n
          = natReprGo fuel (n / 10) ++ [digitChar (n % 10)] := by
        simp [natReprGo, hn]
      rw [hstep, parseDigitsAux_append]
      have hdiv : n / 10 < fuel := by
        have hlt := Nat.div_lt_self (by omega : 0 < n) (by omega : 1 < 10)
        omega
      rw [ih (n / 10) acc hdiv]
      simp only [parseDigitsAux, digitVal_digitChar (n % 10) (Nat.mod_lt _ (by omega))]
      have hmod := Nat.div_add_mod n 10
      have hlen : (natReprGo fuel (n / 10) ++ [digitChar (n % 10)]).length
          = (natReprGo fuel (n / 10)).length + 1 := by simp
      rw [hlen]
      congr 1
      rw [pow_succ]
      generalize (10 : Nat) ^ (natReprGo fuel (n / 10)).length = A
      have hB : acc * (A * 10) = acc * A * 10 := by ring
      rw [hB]
      generalize acc * A = B
      omega

/-- Parsing the decimal expansion of a natural number recovers it. -/
theorem parseDigits_natRepr (n : Nat) : parseDigits (natRepr n) = some n := by
  by_cases hn : n = 0
  · subst hn; decide
  · have hne : natRepr n ≠ [] := natRepr_ne_nil n
    unfold parseDigits
    rw [if_neg (by simpa using hne)]
    unfold natRepr
    rw [if_neg hn]
    rw [parseDigitsAux_natReprGo (n + 1) n 0 (by omega)]
    simp

/-- Dropping whitespace is the identity on whitespace-free strings. -/
theorem trimWs_of_no_ws (l : PyStr) (h : ∀ c ∈ l, isWsChar c = false) :
    trimWs l = l := by
  unfold trimWs
  have h1 : l.dropWhile isWsChar = l := by
    cases l with
    | nil => rfl
    | cons c t =>
      rw [List.dropWhile_cons, if_neg (by simp [h c (by simp)])]
  rw [h1]
  have h2 : l.reverse.dropWhile isWsChar = l.reverse := by
    cases hr : l.reverse with
    | nil => rfl
    | cons c t =>
      have hcl : c ∈ l := by
        rw [← List.mem_reverse, hr]; simp
      rw [List.dropWhile_cons, if_neg (by simp [h c hcl])]
  rw [h2, List.reverse_reverse]

/-- Python int() inverts Python str() on every integer. -/
theorem pyIntParse_intRepr (n : Int) : pyIntParse (intRepr n) = some n := by
  cases n with
  | ofNat m =>
    have hchars := natRepr_chars m
    have htrim : trimWs (natRepr m) = natRepr m :=
      trimWs_of_no_ws _ (fun c hc => (digit_char_facts (hchars c hc)).1)
    show pyIntParse (natRepr m) = some (Int.ofNat m)
    unfold pyIntParse
    rw [htrim]
    cases hrep : natRepr m with
    | nil => exact absurd hrep (natRepr_ne_nil m)
    | cons c t =>
      have hc := hchars c (by rw [hrep]; simp)
      have hfacts := digit_char_facts hc
      simp only [hrep]
      rw [if_neg hfacts.2.1, if_neg hfacts.2.2.1, ← hrep, parseDigits_natRepr m]
      rfl
  | negSucc m =>
    have hchars := natRepr_chars (m + 1)
    have htrim : trimWs ('-' :: natRepr (m + 1)) = '-' :: natRepr (m + 1) :=
      trimWs_of_no_ws _ (fun c hc => by
        rcases List.mem_cons.mp hc with rfl | hmem
        · decide
        · exact (digit_char_facts (hchars c hmem)).1)
    show pyIntParse ('-' :: natRepr (m + 1)) = some (Int.negSucc m)
    unfold pyIntParse
    rw [htrim]
    have hpd := parseDigits_natRepr (m + 1)
    simp only [hpd, reduceIte, Option.map_some', Option.map_map]
    simp [Int.negSucc_eq]

/-- The decimal form of an integer never contains an at-sign. -/
theorem intRepr_no_at (n : Int) : hasAt (intRepr n) = false := by
  simp only [hasAt, decide_eq_false_iff_not]
  intro hmem
  cases n with
  | ofNat m =>
    exact (digit_char_facts (natRepr_chars m '@' hmem)).2.2.2 rfl
  | negSucc m =>
    rcases List.mem_cons.mp hmem with hc | hc
    · exact absurd hc.symm (by decide)
    · exact (digit_char_facts (natRepr_chars (m + 1) '@' hc)).2.2.2 rfl

/-- Presence of an at-sign as a propositional statement. -/
theorem hasAt_iff (l : PyStr) : hasAt l = true ↔ '@' ∈ l := by
  simp [hasAt]

/-- A string containing an at-sign is not all digits. -/
theorem pyIsDigit_false_of_at {l : PyStr} (h : '@' ∈ l) : pyIsDigit l = false := by
  unfold pyIsDigit
  have hall : l.all isDigitChar = false := by
    rw [List.all_eq_false]
    exact ⟨'@', h, by decide⟩
  simp [hall]

/-- Lower-casing maps only the at-sign to the at-sign. -/
theorem lowerChar_eq_at {c : Char} : lowerChar c = '@' ↔ c = '@' := by
  constructor
  · intro h
    unfold lowerChar at h
    split at h <;> first | (exact absurd h (by decide)) | exact h
  · intro h; rw [h]; decide

/-- Lower-casing preserves the presence of an at-sign. -/
theorem mem_at_lowerStr (l : PyStr) : '@' ∈ lowerStr l ↔ '@' ∈ l := by
  unfold lowerStr
  constructor
  · intro h
    obtain ⟨c, hc, hce⟩ := List.mem_map.mp h
    rw [← lowerChar_eq_at.mp hce]
    exact hc
  · intro h
    exact List.mem_map.mpr ⟨'@', h, by decide⟩

/-- find? returns the unique element satisfying the predicate. -/
theorem find?_eq_some_of_unique {α : Type} (p : α → Bool) (l : List α) (u : α)
    (hu : u ∈ l) (hp : p u = true) (huniq : ∀ v ∈ l, p v = true → v = u) :
    l.find? p = some u := by
  induction l with
  | nil => simp at hu
  | cons a t ih =>
    by_cases ha : p a = true
    · have hau : a = u := huniq a (by simp) ha
      rw [hau]
      exact List.find?_cons_of_pos _ (hau ▸ ha)
    · have hau : a ≠ u := fun he => ha (he ▸ hp)
      have hu' : u ∈ t := by
        rcases List.mem_cons.mp hu with h1 | h1
        · exact absurd h1.symm hau
        · exact h1
      rw [List.find?_cons_of_neg _ (by simp [ha])]
      exact ih hu' (fun v hv hpv => huniq v (by simp [hv]) hpv)

/-- find? skips a prefix on which the predicate is everywhere false. -/
theorem find?_append_right {α : Type} (p : α → Bool) (l1 l2 : List α)
    (h : ∀ v ∈ l1, p v = false) : (l1 ++ l2).find? p = l2.find? p := by
  induction l1 with
  | nil => rfl
  | cons a t ih =>
    rw [List.cons_append, List.find?_cons_of_neg _ (by simp [h a (by simp)])]
    exact ih (fun v hv => h v (by simp [hv]))

/-- Every stored id is bounded by the running maximum. -/
theorem id_le_foldr_max (store : List User) (u : User) (hu : u ∈ store) :
    u.id ≤ store.foldr (fun v m => max v.id m) 0 := by
  induction store with
  | nil => simp at hu
  | cons a t ih =>
    simp only [List.foldr_cons]
    rcases List.mem_cons.mp hu with rfl | h
    · exact le_max_left _ _
    · exact le_trans (ih h) (le_max_right _ _)

/-- When the identifier has no at-sign, resolution goes through int(). -/
theorem resolveUser_no_at (store : List User) (identifier : PyStr)
    (hat : hasAt identifier = false) :
    resolveUser store identifier =
      match pyIntParse identifier with
      | some n => get_user store n
      | none => none := by
  simp [resolveUser, hat]

/-- When the identifier has an at-sign, resolution is the case-insensitive
email scan. -/
theorem resolveUser_at (store : List User) (identifier : PyStr)
    (hat : hasAt identifier = true) :
    resolveUser store identifier =
      store.find? (fun u => lowerStr u.email == lowerStr identifier) := by
  have hd : pyIsDigit identifier = false := pyIsDigit_false_of_at ((hasAt_iff _).mp hat)
  simp [resolveUser, get_users, hat, hd]

/-- A resolved user always comes from the store. -/
theorem resolveUser_mem {store : List User} {i : PyStr} {u : User}
    (h : resolveUser store i = some u) : u ∈ store := by
  by_cases hat : hasAt i = true
  · rw [resolveUser_at store i hat] at h
    exact List.mem_of_find?_eq_some h
  · rw [resolveUser_no_at store i (by simpa using hat)] at h
    cases hp : pyIntParse i with
    | none =>
      rw [hp] at h
      have h' : (none : Option User) = some u := h
      cases h'
    | some n =>
      rw [hp] at h
      have h' : get_user store n = some u := h
      unfold get_user at h'
      exact List.mem_of_find?_eq_some h'

/-- The "id" argument, when present, is the effective identifier (an empty
one falls back to the absent "identifier" argument, which is also empty). -/
theorem effIdentifier_id (l : PyStr) : effIdentifier { id := some l } = l := by
  cases l with
  | nil => rfl
  | cons c t => rfl

/-- C4: an identifier that resolves to no stored record — neither as a
parsed integer id nor as a case-insensitive address — yields the not-found
dict carrying the identifier, which differs from every success dict. -/
theorem fetch_not_found (store : List User) (identifier : PyStr)
    (hnum : ∀ n, pyIntParse identifier = some n → get_user store n = none)
    (hmail : ∀ u ∈ store, lowerStr u.email ≠ lowerStr identifier) :
    execute_fetch { id := some identifier } store = notFoundResult identifier
    ∧ ∀ u, notFoundResult identifier ≠ foundResult u := by
  have hres : resolveUser store identifier = none := by
    by_cases hat : hasAt identifier = true
    · rw [resolveUser_at store identifier hat, List.find?_eq_none]
      intro u hu
      simp only [beq_iff_eq]
      exact hmail u hu
    · rw [resolveUser_no_at store identifier (by simpa using hat)]
      cases hp : pyIntParse identifier with
      | none => rfl
      | some n => exact hnum n hp
  constructor
  · simp only [execute_fetch, effIdentifier_id, hres]
  · intro u h
    have hmeta := congrArg FetchResult.metadata h
    simp [notFoundResult, foundResult] at hmeta

/-- C4 witness: fetching "nonexistent" from a concrete store fails with the
not-found dict. -/
theorem fetch_not_found_witness :
    execute_fetch { id := some ("nonexistent".toList) } [alice, bob]
      = notFoundResult ("nonexistent".toList)
    ∧ ∀ u, notFoundResult ("nonexistent".toList) ≠ foundResult u :=
  fetch_not_found [alice, bob] ("nonexistent".toList)
    (fun n h => by
      rw [show pyIntParse ("nonexistent".toList) = none from by decide] at h
      cases h)
    (by decide)

/-- C5 counterexample: the exact-match uniqueness constraint admits two
records whose addresses differ only by case; fetching the second record's
own address (a letter-case variant of itself) returns the first record,
while fetching the second record's id returns the second. -/
theorem fetch_c5_counterexample :
    execute_fetch { id := some ("x@y".toList) }
        [⟨1, "A".toList, "X@Y".toList⟩, ⟨2, "B".toList, "x@y".toList⟩]
      = foundResult ⟨1, "A".toList, "X@Y".toList⟩
    ∧ execute_fetch { id := some ("2".toList) }
        [⟨1, "A".toList, "X@Y".toList⟩, ⟨2, "B".toList, "x@y".toList⟩]
      = foundResult ⟨2, "B".toList, "x@y".toList⟩
    ∧ foundResult (⟨1, "A".toList, "X@Y".toList⟩ : User)
      ≠ foundResult ⟨2, "B".toList, "x@y".toList⟩ := by
  decide

/-- C5 (amended): for a record whose address contains "@", whose
case-folded address no other record shares, and whose id no other record
shares, fetch on any letter-case variant of the address agrees with fetch
on the decimal string of the id, both returning that record. -/
theorem fetch_address_id_agree (store : List User) (u : User) (v : PyStr)
    (hu : u ∈ store)
    (hid : ∀ w ∈ store, w.id = u.id → w = u)
    (hat : hasAt u.email = true)
    (hvar : lowerStr v = lowerStr u.email)
    (huniq : ∀ w ∈ store, lowerStr w.email = lowerStr u.email → w = u) :
    execute_fetch { id := some v } store
      = execute_fetch { id := some (intRepr u.id) } store
    ∧ execute_fetch { id := some v } store = foundResult u := by
  have hatv : hasAt v = true := by
    rw [hasAt_iff]
    rw [← mem_at_lowerStr, hvar, mem_at_lowerStr]
    exact (hasAt_iff _).mp hat
  have hres1 : resolveUser store v = some u := by
    rw [resolveUser_at store v hatv]
    refine find?_eq_some_of_unique _ _ u hu ?_ ?_
    · simp [beq_iff_eq, hvar]
    · intro w hw hpw
      simp only [beq_iff_eq, hvar] at hpw
      exact huniq w hw hpw
  have hres2 : resolveUser store (intRepr u.id) = some u := by
    rw [resolveUser_no_at store _ (intRepr_no_at u.id), pyIntParse_intRepr]
    show get_user store u.id = some u
    unfold get_user
    refine find?_eq_some_of_unique _ _ u hu ?_ ?_
    · simp
    · intro w hw hpw
      exact hid w hw (by simpa using hpw)
  have e1 : execute_fetch { id := some v } store = foundResult u := by
    simp only [execute_fetch, effIdentifier_id, hres1]
  have e2 : execute_fetch { id := some (intRepr u.id) } store = foundResult u := by
    simp only [execute_fetch, effIdentifier_id, hres2]
  exact ⟨e1.trans e2.symm, e1⟩

/-- C5 witness: an upper-case variant of alice's address fetches the same
record as her id string. -/
theorem fetch_address_id_agree_witness :
    execute_fetch { id := some ("ALICE@EXAMPLE.COM".toList) } [alice, bob]
      = execute_fetch { id := some (intRepr alice.id) } [alice, bob]
    ∧ execute_fetch { id := some ("ALICE@EXAMPLE.COM".toList) } [alice, bob]
      = foundResult alice :=
  fetch_address_id_agree [alice, bob] alice ("ALICE@EXAMPLE.COM".toList)
    (by decide) (by decide) (by decide) (by decide) (by decide)

/-- C6: after a successful create, fetching the decimal string of the
assigned id returns the success dict of the created record, whose metadata
carries that id as user_id and the address supplied at create time. -/
theorem create_fetch_roundtrip (store : List User) (nm em : PyStr)
    (store' : List User) (u : User)
    (h : create_user store nm em = .ok store' u) :
    execute_fetch { id := some (intRepr u.id) } store' = foundResult u
    ∧ (foundResult u).metadata
      = some { user_id := u.id, name := nm, email := em
             , account_type := "standard".toList, status := "active".toList } := by
  unfold create_user at h
  by_cases hdup : store.any (fun v => v.email == em) = true
  · rw [if_pos hdup] at h; cases h
  · rw [if_neg hdup] at h
    injection h with h1 h2
    subst h1
    subst h2
    have hbound : ∀ v ∈ store, (v.id == nextId store) = false := by
      intro v hv
      have hle := id_le_foldr_max store v hv
      simp only [beq_eq_false_iff_ne, ne_eq]
      unfold nextId
      omega
    have hget : get_user (store ++ [⟨nextId store, nm, em⟩]) (nextId store)
        = some ⟨nextId store, nm, em⟩ := by
      unfold get_user
      rw [find?_append_right _ store _ hbound]
      exact List.find?_cons_of_pos _ (by simp)
    have hres : resolveUser (store ++ [⟨nextId store, nm, em⟩]) (intRepr (nextId store))
        = some ⟨nextId store, nm, em⟩ := by
      rw [resolveUser_no_at _ _ (intRepr_no_at _), pyIntParse_intRepr]
      exact hget
    constructor
    · simp only [execute_fetch, effIdentifier_id, hres]
    · rfl

/-- C6 witness: the round trip on a store created from empty. -/
theorem create_fetch_roundtrip_witness :
    execute_fetch { id := some (intRepr alice.id) } [alice] = foundResult alice
    ∧ (foundResult alice).metadata
      = some { user_id := alice.id, name := "Alice Johnson".toList
             , email := "alice@example.com".toList
             , account_type := "standard".toList, status := "active".toList } :=
  create_fetch_roundtrip [] ("Alice Johnson".toList) ("alice@example.com".toList)
    [alice] alice (by decide)

/-- C7: inserting a duplicate of an existing address raises the uniqueness
violation (and, dispatched through call_tool, leaves the store unchanged),
and a successful create preserves pairwise-distinct addresses, so no two
persisted records ever share an address. -/
theorem create_duplicate_violation (store : List User) (nm em : PyStr)
    (hdist : store.Pairwise (fun a b => a.email ≠ b.email)) :
    ((∃ v ∈ store, v.email = em) → create_user store nm em = .constraintViolation
      ∧ ∀ req : MCPToolCall, req.name = "create_user".toList →
          req.arguments.name = some nm → req.arguments.email = some em →
          (call_tool req store).2 = store)
    ∧ (∀ store' u, create_user store nm em = .ok store' u →
        store'.Pairwise (fun a b => a.email ≠ b.email)) := by
  constructor
  · rintro ⟨v, hv, hve⟩
    have hcv : create_user store nm em = .constraintViolation := by
      unfold create_user
      rw [if_pos (List.any_eq_true.mpr ⟨v, hv, by simp [hve]⟩)]
    refine ⟨hcv, ?_⟩
    intro req hn ha hb
    have hbody : call_tool_body req store = .raised .integrityErr := by
      simp only [call_tool_body, hn, ha, hb, hcv, reduceIte]
      rw [if_neg (by decide), if_neg (by decide)]
    simp [call_tool, hbody]
  · intro store' u h
    unfold create_user at h
    by_cases hdup : store.any (fun v => v.email == em) = true
    · rw [if_pos hdup] at h; cases h
    · rw [if_neg hdup] at h
      injection h with h1 h2
      subst h1
      simp only [List.any_eq_true, beq_iff_eq, not_exists, not_and] at hdup
      rw [List.pairwise_append]
      refine ⟨hdist, List.pairwise_singleton _ _, ?_⟩
      intro a ha b hb
      have hbe : b = ⟨nextId store, nm, em⟩ := by simpa using hb
      rw [hbe]
      exact fun he => hdup a ha he

/-- C7 witness: a second create with alice's address fails and keeps the
one-record store. -/
theorem create_duplicate_violation_witness :
    create_user [alice] ("Eve".toList) ("alice@example.com".toList) = .constraintViolation
    ∧ (call_tool ⟨"create_user".toList,
        { name := some ("Eve".toList), email := some ("alice@example.com".toList) }⟩ [alice]).2
      = [alice] := by
  have h := (create_duplicate_violation [alice] ("Eve".toList) ("alice@example.com".toList)
      (List.pairwise_singleton _ _)).1 ⟨alice, by decide, by decide⟩
  exact ⟨h.1, h.2 _ rfl rfl rfl⟩

/-- C10: fetch is total over all identifier strings and all stores — it
always returns either the success dict of some stored record or the
not-found dict carrying the effective identifier; in particular the int()
failure on a non-numeric identifier is absorbed. -/
theorem fetch_total (args : ToolArgs) (store : List User) :
    (∃ u ∈ store, execute_fetch args store = foundResult u)
    ∨ execute_fetch args store = notFoundResult (effIdentifier args) := by
  cases hres : resolveUser store (effIdentifier args) with
  | none =>
    right
    simp only [execute_fetch, hres]
  | some u =>
    exact Or.inl ⟨u, resolveUser_mem hres, by simp only [execute_fetch, hres]⟩

/-- Every envelope the try-block returns carries exactly one of result and
error. -/
theorem call_tool_body_shape (req : MCPToolCall) (store : List User) :
    ∀ resp store', call_tool_body req store = .envelope resp store' →
      (resp.result = none ↔ resp.error ≠ none) := by
  intro resp store' h
  simp only [call_tool_body] at h
  repeat' split at h
  all_goals cases h
  all_goals simp

/-- The try-block routes an unrecognised name to the unknown-tool error
envelope. -/
theorem call_tool_body_unknown (req : MCPToolCall) (store : List User)
    (h : req.name ∉ knownTools) :
    call_tool_body req store
      = .envelope { error := some (unknownToolMsg req.name) } store := by
  simp only [knownTools, List.mem_cons, not_or, List.not_mem_nil] at h
  obtain ⟨h1, h2, h3, h4, h5, h6, h7, -⟩ := h
  unfold call_tool_body
  rw [if_neg h1, if_neg h2, if_neg h3, if_neg h4, if_neg h5, if_neg h6, if_neg h7]

/-- C8: dispatch always returns exactly one envelope with exactly one of
result and error set; an unknown operation name yields the unknown-tool
error envelope with the store untouched, and every exception the try-block
raises is converted to an error envelope carrying its message. -/
theorem call_tool_one_envelope (req : MCPToolCall) (store : List User) :
    (req.name ∉ knownTools →
      call_tool req store = ({ error := some (unknownToolMsg req.name) }, store))
    ∧ (∀ e, call_tool_body req store = .raised e →
      call_tool req store = ({ error := some (pyErrMsg e) }, store))
    ∧ ((call_tool req store).1.result = none ↔ (call_tool req store).1.error ≠ none) := by
  refine ⟨?_, ?_, ?_⟩
  · intro h
    unfold call_tool
    rw [call_tool_body_unknown req store h]
  · intro e he
    unfold call_tool
    rw [he]
  · unfold call_tool
    cases hb : call_tool_body req store with
    | envelope resp store' => exact call_tool_body_shape req store resp store' hb
    | raised e => simp

/-- C8 witness: an unrecognised tool name on the empty store. -/
theorem call_tool_one_envelope_witness :
    call_tool ⟨"bogus".toList, {}⟩ []
      = ({ error := some (unknownToolMsg ("bogus".toList)) }, ([] : List User)) :=
  (call_tool_one_envelope ⟨"bogus".toList, {}⟩ []).1 (by decide)

/-- From a started generator state, the n-th further event is a heartbeat
stamped `30 * (n + 1)` units after that state's clock. -/
theorem sseStream_started (t : Nat) :
    ∀ n, sseStream ⟨true, t⟩ n = .heartbeat (t + 30 * (n + 1)) := by
  intro n
  induction n generalizing t with
  | zero =>
    show SseEvent.heartbeat (t + 30) = .heartbeat (t + 30 * (0 + 1))
    norm_num
  | succ n ih =>
    show sseStream ⟨true, t + 30⟩ n = .heartbeat (t + 30 * (n + 1 + 1))
    rw [ih (t + 30)]
    congr 1
    ring

/-- C9: on every fresh connection the first emitted event is the handshake
(never a heartbeat); every later event is a heartbeat emitted one fixed
30-unit interval after the previous one, and the heartbeat timestamps are
strictly increasing for the lifetime of the connection. -/
theorem sse_handshake_then_heartbeats (t0 : Nat) :
    sseStream (sseConnect t0) 0 = .handshake mcpHandshake
    ∧ (∀ k, sseStream (sseConnect t0) (k + 1) = .heartbeat (t0 + 30 * (k + 1)))
    ∧ (∀ j k, j < k →
        heartbeatTime (sseStream (sseConnect t0) (j + 1))
          < heartbeatTime (sseStream (sseConnect t0) (k + 1))) := by
  have hk : ∀ k, sseStream (sseConnect t0) (k + 1) = .heartbeat (t0 + 30 * (k + 1)) := by
    intro k
    show sseStream ⟨true, t0⟩ k = _
    exact sseStream_started t0 k
  refine ⟨rfl, hk, ?_⟩
  intro j k hjk
  rw [hk j, hk k]
  simp only [heartbeatTime]
  omega

/-- C9 witness: the second heartbeat is stamped later than the first. -/
theorem sse_handshake_then_heartbeats_witness :
    heartbeatTime (sseStream (sseConnect 0) 1)
      < heartbeatTime (sseStream (sseConnect 0) 2) :=
  (sse_handshake_then_heartbeats 0).2.2 0 1 (by decide)

end MCPServer
